import Mathlib

/- Verification of the core of a terminal Game of Life program
(src/bin/conway.py): the neighbor enumeration (neighbors), the boundary
clipping policy (die), the generation advance (next_board), the random
board generator (random_board) and the stagnation detector
(BoredomDetector / is_bored_of). -/

/-- A grid position, the Python pair (x, y). -/
abbrev Cell : Type := Int × Int

/-- A Python dict from cells to integer states 0..2, modelled by its
sequence of key-value assignments: `dlookup` returns the value of the
last assignment to a key, and a key is present exactly when some
assignment wrote it. The dicts the program builds assign each key at
most once, so the model coincides with the dict. -/
abbrev Board : Type := List (Cell × Nat)

/-- The keys of a board: the live cells. -/
def keys (b : Board) : List Cell := b.map Prod.fst

/-- Dict lookup: the value of the last assignment to `k`, if any
(later assignments sit further toward the tail, so the tail is searched
first). -/
def dlookup (k : Cell) : Board → Option Nat
  | [] => none
  | kv :: rest =>
    match dlookup k rest with
    | some v => some v
    | none => if kv.1 = k then some kv.2 else none

/-- The Python membership test `point in board` (a dict membership test
looks only at keys). -/
def isLive (b : Board) (p : Cell) : Bool := decide (p ∈ keys b)

/-- `neighbors((x, y))` of conway.py lines 152-162: the 8 possibly
out-of-bounds Moore neighbors of a point, in source order. -/
def neighbors (p : Cell) : List Cell :=
  [(p.1 + 1, p.2), (p.1 - 1, p.2), (p.1, p.2 + 1), (p.1, p.2 - 1),
   (p.1 + 1, p.2 + 1), (p.1 + 1, p.2 - 1), (p.1 - 1, p.2 + 1), (p.1 - 1, p.2 - 1)]

/-- `die((x, y))` of conway.py lines 28-32: return the point unchanged
when `0 <= x < width and 0 <= y < height`, and None (here `none`)
otherwise, so out-of-bounds cells are treated as dead. -/
def die (width height : Int) (p : Cell) : Option Cell :=
  if 0 ≤ p.1 ∧ p.1 < width ∧ 0 ≤ p.2 ∧ p.2 < height then some p else none

/-- conway.py line 131: the candidate set
`set(board.iterkeys()) | set(chain(*map(neighbors, board)))`, i.e. the
live cells together with all of their unclipped neighbors. Python
iterates a set in an unspecified order; `dedup` fixes one duplicate-free
order, which is all the program depends on. -/
def points_to_recalc (board : Board) : List Cell :=
  (keys board ++ (keys board).flatMap neighbors).dedup

/-- conway.py lines 135-136: the live-neighbor count of `point`:
`sum((neigh in board) for neigh in (wrap(n) for n in neighbors(point) if n))`.
Each raw neighbor is passed through `wrap`; a `None` result is not in the
board (`None in board` is false in Python), so it does not count. (The
`if n` filter never rejects a pair: a 2-tuple is always truthy.) -/
def countLiveNeighbors (board : Board) (wrap : Cell → Option Cell) (point : Cell) : Nat :=
  ((neighbors point).map wrap).countP (fun neigh =>
    match neigh with
    | some q => isLive board q
    | none => false)

/-- conway.py lines 137-142: the state decision for one candidate point:
count 3 gives state 0 for a live point and 1 for a dead one, count 2
gives state 2 for a live point, and every other count gives None. -/
def nextState (board : Board) (wrap : Cell → Option Cell) (point : Cell) : Option Nat :=
  if countLiveNeighbors board wrap point = 3 then
    some (if isLive board point then 0 else 1)
  else if countLiveNeighbors board wrap point = 2 ∧ isLive board point then
    some 2
  else
    none

/-- `next_board(board, wrap)` of conway.py lines 117-149: for each
candidate point, decide its state; when a state was assigned and
`wrap(point)` is not None, write `new_board[wrap(point)] = state`.
(A 2-tuple is always truthy, so `if wrapped` tests exactly for None.) -/
def next_board (board : Board) (wrap : Cell → Option Cell) : Board :=
  (points_to_recalc board).filterMap (fun point =>
    match nextState board wrap point with
    | none => none
    | some state =>
      match wrap point with
      | none => none
      | some wrapped => some (wrapped, state))

/-- `next_board` iterated n times with the same wrap policy. -/
def next_board_iter (wrap : Cell → Option Cell) : Nat → Board → Board
  | 0, b => b
  | n + 1, b => next_board_iter wrap n (next_board b wrap)

/-- `random_board(max_x, max_y, load_factor)` of conway.py lines 95-99:
`dict(((randint(0, max_x), randint(0, max_y)), 0) for _ in
xrange(int(max_x * max_y / load_factor)))`. The injected random source
is modelled by `draws`, where `draws i` is the pair of `randint` results
of iteration i; Python 2 division of nonnegative ints floors, matching
Nat division. Every generated cell is paired with the fixed state 0. -/
def random_board (max_x max_y load_factor : Nat) (draws : Nat → Int × Int) : Board :=
  (List.range (max_x * max_y / load_factor)).map (fun i => (draws i, 0))

/-- BoredomDetector REPETITIONS (conway.py line 169). -/
def REPETITIONS : Nat := 14

/-- BoredomDetector PATTERN_LENGTH (conway.py line 172). -/
def PATTERN_LENGTH : Nat := 4

/-- The three integer fields of a BoredomDetector: `iteration` (signed:
the reset jitter makes it negative), `num` (the population recorded at
the last reset) and `times` (the stable-population streak). -/
structure BoredomDetector where
  iteration : Int
  num : Nat
  times : Nat
deriving DecidableEq, Repr

/-- `BoredomDetector.__init__` (conway.py lines 175-179):
iteration = REPETITIONS * PATTERN_LENGTH + 1 = 57, num = times = 0. -/
def init_detector : BoredomDetector :=
  { iteration := (REPETITIONS * PATTERN_LENGTH : Nat) + 1, num := 0, times := 0 }

/-- conway.py lines 193-194: the value of `self.times` after the
conditional increment, where `board_len` is `len(board)`. -/
def step_times (d : BoredomDetector) (board_len : Nat) : Nat :=
  if board_len = d.num then d.times + 1 else d.times

/-- conway.py line 195: `is_bored = self.times > self.REPETITIONS`,
evaluated after the increment. -/
def step_bored (d : BoredomDetector) (board_len : Nat) : Bool :=
  decide (REPETITIONS < step_times d board_len)

/-- conway.py line 196: whether the reset branch runs on this call:
`self.iteration > self.REPETITIONS * self.PATTERN_LENGTH or is_bored`,
with `self.iteration` already incremented by line 192. -/
def resets (d : BoredomDetector) (board_len : Nat) : Bool :=
  decide (((REPETITIONS * PATTERN_LENGTH : Nat) : Int) < d.iteration + 1) ||
    step_bored d board_len

/-- `BoredomDetector.is_bored_of(board)` (conway.py lines 181-202) as a
state transformer: `board_len` is `len(board)` and `jitter` is the
`randint(-2, 0)` outcome read when the reset branch runs. Returns the
boolean result together with the updated detector. -/
def is_bored_of (d : BoredomDetector) (board_len : Nat) (jitter : Int) : Bool × BoredomDetector :=
  (step_bored d board_len,
   if resets d board_len then
     { iteration := jitter, num := board_len, times := 0 }
   else
     { iteration := d.iteration + 1, num := d.num, times := step_times d board_len })

/-- The detector state after a sequence of calls; each list entry is a
pair of `len(board)` and the jitter outcome of that call. -/
def run_det (d : BoredomDetector) : List (Nat × Int) → BoredomDetector
  | [] => d
  | (p, j) :: rest => run_det (is_bored_of d p j).2 rest

/-- The list of results of a sequence of calls. -/
def run_results (d : BoredomDetector) : List (Nat × Int) → List Bool
  | [] => []
  | (p, j) :: rest => (is_bored_of d p j).1 :: run_results (is_bored_of d p j).2 rest

/-- True when the reset branch runs on none of the calls of the
sequence. -/
def noResetDuring (d : BoredomDetector) : List (Nat × Int) → Bool
  | [] => true
  | (p, j) :: rest => !resets d p && noResetDuring (is_bored_of d p j).2 rest

/-- The number of calls of the sequence on which the reset branch
runs. -/
def countResets (d : BoredomDetector) : List (Nat × Int) → Nat
  | [] => 0
  | (p, j) :: rest => (if resets d p then 1 else 0) + countResets (is_bored_of d p j).2 rest

/-- The standard five-cell glider, placed with its bounding box at
(8, 8), far from the boundary of a 20 x 20 grid. -/
def glider : Board :=
  [(((9:Int), (8:Int)), 0), (((10:Int), (9:Int)), 0), (((8:Int), (10:Int)), 0),
   (((9:Int), (10:Int)), 0), (((10:Int), (10:Int)), 0)]

/- ------------------------------------------------------------------ -/
/- Helper lemmas.                                                      -/
/- ------------------------------------------------------------------ -/

theorem die_eq_some {W H : Int} {p q : Cell} (h : die W H p = some q) :
    q = p ∧ 0 ≤ p.1 ∧ p.1 < W ∧ 0 ≤ p.2 ∧ p.2 < H := by
  by_cases hb : 0 ≤ p.1 ∧ p.1 < W ∧ 0 ≤ p.2 ∧ p.2 < H
  · rw [die, if_pos hb] at h
    cases h
    exact ⟨rfl, hb⟩
  · rw [die, if_neg hb] at h
    cases h

theorem die_cases (W H : Int) (p : Cell) : die W H p = some p ∨ die W H p = none := by
  rw [die]
  split
  · exact Or.inl rfl
  · exact Or.inr rfl

theorem dlookup_filterMap (f : Cell → Option (Cell × Nat))
    (hf : ∀ q kv, f q = some kv → kv.1 = q) :
    ∀ (l : List Cell), l.Nodup → ∀ (p : Cell),
      dlookup p (l.filterMap f) = if p ∈ l then (f p).map Prod.snd else none := by
  intro l
  induction l with
  | nil => intro _ p; simp [dlookup]
  | cons a l ih =>
    intro hnd p
    rw [List.nodup_cons] at hnd
    rw [List.filterMap_cons]
    by_cases hpa : p = a
    · subst hpa
      have hpl : p ∉ l := hnd.1
      rcases hfa : f p with _ | kv
      · rw [ih hnd.2 p, if_neg hpl]
        simp [hfa]
      · have hkv : kv.1 = p := hf p kv hfa
        simp only [dlookup]
        rw [ih hnd.2 p, if_neg hpl]
        simp [hkv, hfa]
    · have hap : ¬ a = p := fun h => hpa h.symm
      rcases hfa : f a with _ | kv
      · rw [ih hnd.2 p]
        simp [List.mem_cons, hpa]
      · have hkv : kv.1 = a := hf a kv hfa
        simp only [dlookup]
        rw [ih hnd.2 p]
        by_cases hpl : p ∈ l
        · rw [if_pos hpl, if_pos (List.mem_cons_of_mem a hpl)]
          rcases hfp : f p with _ | kv2
          · simp [hfp, hkv, hap]
          · simp [hfp]
        · have hmem : ¬ p ∈ a :: l := by
            rw [List.mem_cons]
            push_neg
            exact ⟨hpa, hpl⟩
          rw [if_neg hpl, if_neg hmem]
          simp [hkv, hap]

theorem neighbors_nodup (q : Cell) : (neighbors q).Nodup := by
  simp [neighbors, Prod.ext_iff]
  omega

theorem countP_eq_cell_le_one (c : Cell) : ∀ (l : List Cell), l.Nodup →
    l.countP (fun n => decide (n = c)) ≤ 1 := by
  intro l
  induction l with
  | nil => intro _; simp
  | cons a l ih =>
    intro h
    rw [List.nodup_cons] at h
    rw [List.countP_cons]
    by_cases hac : a = c
    · subst hac
      have hz : l.countP (fun n => decide (n = a)) = 0 := by
        rw [List.countP_eq_zero]
        intro n hn
        simp only [decide_eq_true_eq]
        intro hna
        exact h.1 (hna ▸ hn)
      simp [hz]
    · have := ih h.2
      simp [hac]
      omega

theorem next_board_entry_fst (board : Board) (W H : Int) :
    ∀ (q : Cell) (kv : Cell × Nat),
      (fun point =>
        match nextState board (die W H) point with
        | none => none
        | some state =>
          match die W H point with
          | none => none
          | some wrapped => some (wrapped, state)) q = some kv → kv.1 = q := by
  intro q kv h
  simp only at h
  rcases hns : nextState board (die W H) q with _ | s <;> rw [hns] at h
  · cases h
  · rcases hd : die W H q with _ | w <;> rw [hd] at h
    · cases h
    · cases h
      exact (die_eq_some hd).1

theorem points_to_recalc_nodup (board : Board) : (points_to_recalc board).Nodup := by
  unfold points_to_recalc
  exact List.nodup_dedup _

theorem dlookup_next_board (board : Board) (W H : Int) (p : Cell) :
    dlookup p (next_board board (die W H)) =
      if p ∈ points_to_recalc board then
        Option.map Prod.snd
          (match nextState board (die W H) p with
           | none => none
           | some state =>
             match die W H p with
             | none => none
             | some wrapped => some (wrapped, state))
      else none := by
  unfold next_board
  exact dlookup_filterMap _ (next_board_entry_fst board W H) _
    (points_to_recalc_nodup board) p

/- ------------------------------------------------------------------ -/
/- Claim theorems.                                                     -/
/- ------------------------------------------------------------------ -/

/-- C1 (counterexample): in a 3 x 3 grid with the vertical blinker
column at x = 0, the out-of-bounds candidate (-1, 1) has live-neighbor
count 3 and is not live, so the claim as stated demands that it appear
in the output with the Born state; the code instead drops it, because
the final clip of the candidate maps it to None. -/
theorem C1_counterexample :
    countLiveNeighbors
        [(((0:Int), (0:Int)), 0), (((0:Int), (1:Int)), 0), (((0:Int), (2:Int)), 0)]
        (die 3 3) ((-1:Int), (1:Int)) = 3 ∧
    isLive [(((0:Int), (0:Int)), 0), (((0:Int), (1:Int)), 0), (((0:Int), (2:Int)), 0)]
        ((-1:Int), (1:Int)) = false ∧
    ((-1:Int), (1:Int)) ∈ points_to_recalc
        [(((0:Int), (0:Int)), 0), (((0:Int), (1:Int)), 0), (((0:Int), (2:Int)), 0)] ∧
    dlookup ((-1:Int), (1:Int))
        (next_board
          [(((0:Int), (0:Int)), 0), (((0:Int), (1:Int)), 0), (((0:Int), (2:Int)), 0)]
          (die 3 3)) = none := by
  decide

/-- C1 (amended): for every input board and every candidate cell p
examined by next_board with the die clipping policy, the new state is
decided with exactly the stated precedence - count 3 and live gives 0
(Survived), count 3 and dead gives 1 (Born), count 2 and live gives 2
(Stable), otherwise absent - provided the final clip keeps p; a
candidate that the clip maps to None is absent regardless of its
count, as is every non-candidate cell. -/
theorem C1_precedence_with_clip (board : Board) (W H : Int) (p : Cell) :
    dlookup p (next_board board (die W H)) =
      if p ∈ points_to_recalc board ∧ die W H p = some p then
        (if countLiveNeighbors board (die W H) p = 3 ∧ isLive board p = true then some 0
         else if countLiveNeighbors board (die W H) p = 3 ∧ isLive board p = false then some 1
         else if countLiveNeighbors board (die W H) p = 2 ∧ isLive board p = true then some 2
         else none)
      else none := by
  rw [dlookup_next_board]
  by_cases hmem : p ∈ points_to_recalc board
  · rw [if_pos hmem]
    rcases die_cases W H p with hd | hd
    · rw [if_pos ⟨hmem, hd⟩]
      unfold nextState
      by_cases h3 : countLiveNeighbors board (die W H) p = 3 <;>
        by_cases h2 : countLiveNeighbors board (die W H) p = 2 <;>
        rcases hL : isLive board p with _ | _ <;>
        simp [h3, h2, hL, hd]
    · have hnot : ¬ (p ∈ points_to_recalc board ∧ die W H p = some p) := by
        rintro ⟨_, h⟩
        rw [hd] at h
        cases h
      rw [if_neg hnot]
      rcases hns : nextState board (die W H) p with _ | s <;> simp [hns, hd]
  · rw [if_neg hmem, if_neg (fun h => hmem h.1)]

/-- C2: with the die clipping policy, every key of the board returned by
next_board lies strictly inside the grid bounds, for every input board,
including boards that themselves hold out-of-bounds keys; clipped
coordinates are dropped, never wrapped. -/
theorem C2_keys_in_bounds (board : Board) (W H : Int) (x y : Int)
    (h : (x, y) ∈ keys (next_board board (die W H))) :
    0 ≤ x ∧ x < W ∧ 0 ≤ y ∧ y < H := by
  unfold keys next_board at h
  rw [List.mem_map] at h
  obtain ⟨kv, hkv, hfst⟩ := h
  obtain ⟨q, _, hfq⟩ := List.mem_filterMap.mp hkv
  rcases hns : nextState board (die W H) q with _ | s <;> rw [hns] at hfq
  · cases hfq
  · rcases hd : die W H q with _ | w <;> rw [hd] at hfq
    · cases hfq
    · cases hfq
      obtain ⟨hwq, hb⟩ := die_eq_some hd
      have hqxy : q = (x, y) := by rw [← hwq]; exact hfst
      rw [hqxy] at hb
      exact hb

/-- C2 (witness): a concrete instance - the horizontal blinker in a
3 x 3 grid produces the key (1, 1), which is in bounds. -/
theorem C2_keys_in_bounds_witness :
    (0:Int) ≤ 1 ∧ (1:Int) < 3 ∧ (0:Int) ≤ 1 ∧ (1:Int) < 3 :=
  C2_keys_in_bounds
    [(((0:Int), (0:Int)), 0), (((1:Int), (0:Int)), 0), (((2:Int), (0:Int)), 0)]
    3 3 1 1 (by decide)

/-- C7: the five-cell glider, placed far from every boundary of a
20 x 20 grid and advanced four times by next_board with the die clipping
policy, yields a board whose key set is exactly the key set of the
original glider translated by (1, 1). -/
theorem C7_glider_translates :
    (keys (next_board_iter (die 20 20) 4 glider)).toFinset =
      ((keys glider).map (fun p => (p.1 + 1, p.2 + 1))).toFinset := by
  decide

/-- C8: a board holding a single in-bounds cell, whatever its state,
advances to the empty board under the die clipping policy: the isolated
live cell dies and none of its dead neighbors is born. -/
theorem C8_single_cell_dies (W H : Int) (c : Cell) (s : Nat)
    (hin : die W H c = some c) :
    next_board [(c, s)] (die W H) = [] := by
  unfold next_board
  rw [List.filterMap_eq_nil_iff]
  intro q hq
  have hcount : countLiveNeighbors [(c, s)] (die W H) q ≤ 1 := by
    have h1 : countLiveNeighbors [(c, s)] (die W H) q ≤
        (neighbors q).countP (fun n => decide (n = c)) := by
      unfold countLiveNeighbors
      rw [List.countP_map]
      apply List.countP_mono_left
      intro n hn hpred
      rcases hd : die W H n with _ | w
      · rw [Function.comp_apply, hd] at hpred
        cases hpred
      · rw [Function.comp_apply, hd] at hpred
        have hw : w ∈ keys [(c, s)] := of_decide_eq_true hpred
        have hwc : w = c := by simpa [keys] using hw
        have hwn : w = n := (die_eq_some hd).1
        simp only [decide_eq_true_eq]
        rw [← hwn, hwc]
    have h2 : (neighbors q).countP (fun n => decide (n = c)) ≤ 1 :=
      countP_eq_cell_le_one c (neighbors q) (neighbors_nodup q)
    omega
  have hns : nextState [(c, s)] (die W H) q = none := by
    unfold nextState
    rw [if_neg (by omega), if_neg (by rintro ⟨h2, _⟩; omega)]
  simp [hns]

/-- C8 (witness): the single live cell (2, 2) in a 5 x 5 grid dies. -/
theorem C8_single_cell_dies_witness :
    next_board [(((2:Int), (2:Int)), 0)] (die 5 5) = [] :=
  C8_single_cell_dies 5 5 ((2:Int), (2:Int)) 0 (by decide)

/-- C3 (counterexample): a concrete run of random_board in which every
draw lands on (0, 0) stores the state 0 for that cell, not the value 2
that the 2-neighbor survival (Stable) branch of next_board assigns. -/
theorem C3_counterexample :
    dlookup ((0:Int), (0:Int)) (random_board 3 3 1 (fun _ => ((0:Int), (0:Int)))) = some 0 ∧
    (0 : Nat) ≠ 2 := by
  decide

/-- C3 (amended): for every maxX, maxY, loadFactor and every outcome of
the random source, every cell in the board returned by random_board is
assigned the same fixed initial state 0 - the value the 3-neighbor
live-survival (Survived) branch of next_board assigns - not the Stable
value 2. -/
theorem C3_amended_random_state_zero (max_x max_y load_factor : Nat)
    (draws : Nat → Int × Int) (kv : Cell × Nat)
    (h : kv ∈ random_board max_x max_y load_factor draws) :
    kv.2 = 0 := by
  unfold random_board at h
  rw [List.mem_map] at h
  obtain ⟨i, _, hi⟩ := h
  rw [← hi]

/-- C3 (amended, witness): a concrete cell drawn by random_board carries
state 0. -/
theorem C3_amended_random_state_zero_witness :
    ((((1:Int), (1:Int)), (0:Nat))).2 = 0 :=
  C3_amended_random_state_zero 2 2 1 (fun _ => ((1:Int), (1:Int)))
    (((1:Int), (1:Int)), 0) (by decide)

/-- C9: whenever every draw of the random source respects the inclusive
randint ranges, every key of the board returned by random_board lies in
[0, maxX] x [0, maxY], and the number of distinct keys is at most
floor(maxX * maxY / loadFactor): duplicate draws collapse silently. -/
theorem C9_random_board_bounds (max_x max_y load_factor : Nat)
    (hlf : 1 ≤ load_factor) (draws : Nat → Int × Int)
    (hdraws : ∀ i, 0 ≤ (draws i).1 ∧ (draws i).1 ≤ (max_x : Int) ∧
        0 ≤ (draws i).2 ∧ (draws i).2 ≤ (max_y : Int)) :
    (∀ x y, (x, y) ∈ keys (random_board max_x max_y load_factor draws) →
        0 ≤ x ∧ x ≤ (max_x : Int) ∧ 0 ≤ y ∧ y ≤ (max_y : Int)) ∧
    (keys (random_board max_x max_y load_factor draws)).dedup.length ≤
        max_x * max_y / load_factor := by
  constructor
  · intro x y h
    unfold keys random_board at h
    rw [List.map_map, List.mem_map] at h
    obtain ⟨i, _, hi⟩ := h
    have hb := hdraws i
    have hxy : draws i = (x, y) := hi
    rw [hxy] at hb
    exact hb
  · have hsub : (keys (random_board max_x max_y load_factor draws)).dedup.length ≤
        (keys (random_board max_x max_y load_factor draws)).length :=
      (List.dedup_sublist _).length_le
    have hlen : (keys (random_board max_x max_y load_factor draws)).length =
        max_x * max_y / load_factor := by
      unfold keys random_board
      rw [List.length_map, List.length_map, List.length_range]
    omega

/-- C9 (witness): with maxX = maxY = 2, loadFactor = 1 and a source that
always draws (1, 1), the bounds hold and the four colliding draws leave
a single distinct key, at most 2 * 2 / 1 = 4. -/
theorem C9_random_board_bounds_witness :
    (∀ x y, (x, y) ∈ keys (random_board 2 2 1 (fun _ => ((1:Int), (1:Int)))) →
        0 ≤ x ∧ x ≤ ((2:Nat) : Int) ∧ 0 ≤ y ∧ y ≤ ((2:Nat) : Int)) ∧
    (keys (random_board 2 2 1 (fun _ => ((1:Int), (1:Int))))).dedup.length ≤ 2 * 2 / 1 :=
  C9_random_board_bounds 2 2 1 (by decide) (fun _ => ((1:Int), (1:Int)))
    (fun _ => ⟨by norm_num, by norm_num, by norm_num, by norm_num⟩)

/-- C10: every state value the core stores - by random_board for any
arguments and draws, and by next_board for any input board and any clip
policy - is one of the three CellState code values 0, 1, 2, so a
rendering table with exactly three entries indexed by state covers
every value the core can emit. -/
theorem C10_states_in_range :
    (∀ (max_x max_y load_factor : Nat) (draws : Nat → Int × Int) (kv : Cell × Nat),
        kv ∈ random_board max_x max_y load_factor draws →
        kv.2 = 0 ∨ kv.2 = 1 ∨ kv.2 = 2) ∧
    (∀ (board : Board) (wrap : Cell → Option Cell) (kv : Cell × Nat),
        kv ∈ next_board board wrap →
        kv.2 = 0 ∨ kv.2 = 1 ∨ kv.2 = 2) := by
  constructor
  · intro mx my lf draws kv h
    unfold random_board at h
    rw [List.mem_map] at h
    obtain ⟨i, _, hi⟩ := h
    rw [← hi]
    left
    rfl
  · intro board wrap kv h
    unfold next_board at h
    obtain ⟨q, _, hfq⟩ := List.mem_filterMap.mp h
    rcases hns : nextState board wrap q with _ | s <;> rw [hns] at hfq
    · cases hfq
    · rcases hw : wrap q with _ | w <;> rw [hw] at hfq
      · cases hfq
      · cases hfq
        unfold nextState at hns
        by_cases h3 : countLiveNeighbors board wrap q = 3
        · rw [if_pos h3] at hns
          rcases hL : isLive board q with _ | _ <;> rw [hL] at hns <;>
            simp at hns <;> simp [← hns]
        · rw [if_neg h3] at hns
          by_cases h2 : countLiveNeighbors board wrap q = 2 ∧ isLive board q = true
          · rw [if_pos h2] at hns
            cases hns
            right; right; rfl
          · rw [if_neg h2] at hns
            cases hns

/-- C10 (witness): a concrete random_board cell carries state 0, and the
concrete blinker advance stores state 2 at (1, 0); both lie in the
three-value range. -/
theorem C10_states_in_range_witness :
    (((((1:Int), (1:Int)), (0:Nat))).2 = 0 ∨ ((((1:Int), (1:Int)), (0:Nat))).2 = 1 ∨
        ((((1:Int), (1:Int)), (0:Nat))).2 = 2) ∧
    (((((1:Int), (0:Int)), (2:Nat))).2 = 0 ∨ ((((1:Int), (0:Int)), (2:Nat))).2 = 1 ∨
        ((((1:Int), (0:Int)), (2:Nat))).2 = 2) :=
  ⟨C10_states_in_range.1 2 2 1 (fun _ => ((1:Int), (1:Int))) (((1:Int), (1:Int)), 0)
      (by decide),
   C10_states_in_range.2
      [(((0:Int), (0:Int)), 0), (((1:Int), (0:Int)), 0), (((2:Int), (0:Int)), 0)]
      (die 3 3) (((1:Int), (0:Int)), 2) (by decide)⟩

theorem run_det_noReset : ∀ (L : List (Nat × Int)) (d : BoredomDetector),
    noResetDuring d L = true →
    run_det d L =
      { iteration := d.iteration + L.length, num := d.num,
        times := d.times + (L.map Prod.fst).countP (fun p => decide (p = d.num)) } := by
  intro L
  induction L with
  | nil =>
    intro d _
    simp [run_det]
  | cons pj rest ih =>
    obtain ⟨p, j⟩ := pj
    intro d h
    rw [noResetDuring, Bool.and_eq_true, Bool.not_eq_true'] at h
    obtain ⟨hres, hrest⟩ := h
    have h2 : (is_bored_of d p j).2 =
        { iteration := d.iteration + 1, num := d.num, times := step_times d p } := by
      rw [is_bored_of]
      simp [hres]
    rw [run_det]
    rw [h2] at hrest ⊢
    rw [ih _ hrest]
    simp only [List.map_cons, List.countP_cons, List.length_cons]
    rw [BoredomDetector.mk.injEq]
    refine ⟨by push_cast; ring, rfl, ?_⟩
    rw [step_times]
    by_cases hp : p = d.num
    · simp [hp]
      omega
    · simp [hp]

/-- C4: whenever is_bored_of returns true, at least REPETITIONS + 1 = 15
of the calls made since the most recent reset - the calls run from the
post-reset state, whose stableStreak is 0 and whose recorded num is the
lastPopulation of that reset, counting the returning call - passed a
board whose population equaled that recorded lastPopulation; moreover
the stableStreak counter never decreases on a call whose reset branch
does not run. -/
theorem C4_bored_needs_15_matches :
    (∀ (d0 : BoredomDetector) (L : List (Nat × Int)) (p : Nat) (j : Int),
        d0.times = 0 →
        noResetDuring d0 L = true →
        (is_bored_of (run_det d0 L) p j).1 = true →
        REPETITIONS + 1 ≤
          ((L ++ [(p, j)]).map Prod.fst).countP (fun q => decide (q = d0.num))) ∧
    (∀ (d : BoredomDetector) (p : Nat) (j : Int),
        resets d p = false → d.times ≤ (is_bored_of d p j).2.times) := by
  constructor
  · intro d0 L p j h0 hnr hb
    rw [run_det_noReset L d0 hnr] at hb
    rw [is_bored_of] at hb
    simp only [step_bored, step_times, decide_eq_true_eq] at hb
    rw [List.map_append, List.countP_append]
    simp only [List.map_cons, List.map_nil, List.countP_cons, List.countP_nil]
    by_cases hp : p = d0.num
    · rw [if_pos hp] at hb
      simp only [decide_eq_true hp, if_true]
      omega
    · rw [if_neg hp] at hb
      simp only [decide_eq_false hp, Bool.false_eq_true, if_false]
      omega
  · intro d p j hres
    rw [is_bored_of]
    simp only [hres, Bool.false_eq_true, if_false]
    rw [step_times]
    by_cases hp : p = d.num
    · simp [hp]
    · simp [hp]

/-- C4 (witness): from the post-reset state (0, 5, 0), fourteen calls at
population 5 run without a reset and the fifteenth returns true; its
run counts 15 matching populations, and one non-resetting call does not
decrease the streak. -/
theorem C4_bored_needs_15_matches_witness :
    (REPETITIONS + 1 ≤
        (((List.replicate 14 ((5:Nat), (0:Int))) ++ [(5, 0)]).map Prod.fst).countP
          (fun q => decide (q = 5))) ∧
    ((⟨0, 5, 0⟩ : BoredomDetector).times ≤ (is_bored_of ⟨0, 5, 0⟩ 5 0).2.times) :=
  ⟨C4_bored_needs_15_matches.1 ⟨0, 5, 0⟩ (List.replicate 14 ((5:Nat), (0:Int))) 5 0
      rfl (by decide) (by decide),
   C4_bored_needs_15_matches.2 ⟨0, 5, 0⟩ 5 0 (by decide)⟩

theorem countResets_zero : ∀ (rest : List (Nat × Int)) (d : BoredomDetector),
    d.times = 0 →
    (∀ x ∈ rest, x.1 ≠ d.num) →
    d.iteration + rest.length ≤ ((REPETITIONS * PATTERN_LENGTH : Nat) : Int) →
    countResets d rest = 0 := by
  intro rest
  induction rest with
  | nil =>
    intro d _ _ _
    rfl
  | cons x rest ih =>
    obtain ⟨p, j⟩ := x
    intro d h0 hne hit
    have hplen : ((p, j) :: rest).length = rest.length + 1 := rfl
    rw [hplen] at hit
    have hstep : step_times d p = d.times := by
      rw [step_times, if_neg (hne (p, j) (List.mem_cons_self _ _))]
    have hres : resets d p = false := by
      rw [resets, step_bored, hstep, h0]
      simp only [Bool.or_eq_false_iff, decide_eq_false_iff_not, not_lt]
      constructor
      · push_cast at hit ⊢
        omega
      · norm_num [REPETITIONS]
    rw [countResets, hres]
    have h2 : (is_bored_of d p j).2 =
        { iteration := d.iteration + 1, num := d.num, times := d.times } := by
      rw [is_bored_of]
      simp [hres, hstep]
    rw [h2]
    simp only [if_false, Bool.false_eq_true, zero_add]
    apply ih
    · exact h0
    · intro x hx
      exact hne x (List.mem_cons_of_mem _ hx)
    · push_cast at hit ⊢
      omega

/-- C5: from a freshly constructed BoredomDetector (iteration 57,
lastPopulation 0, stableStreak 0), any 57 calls of is_bored_of on
strictly increasing populations, with every jitter outcome drawn from
the interval [-2, 0], execute the reset branch exactly once, and that
single reset runs on the very first call. -/
theorem C5_reset_fires_once (p : Nat) (j : Int) (rest : List (Nat × Int))
    (hlen : ((p, j) :: rest).length = 57)
    (hinc : ((p, j) :: rest).Pairwise (fun a b => a.1 < b.1))
    (hj : -2 ≤ j ∧ j ≤ 0)
    (hjr : ∀ x ∈ rest, -2 ≤ x.2 ∧ x.2 ≤ 0) :
    resets init_detector p = true ∧
    countResets init_detector ((p, j) :: rest) = 1 := by
  have hres : resets init_detector p = true := by
    rw [resets, Bool.or_eq_true]
    left
    decide
  refine ⟨hres, ?_⟩
  rw [countResets, hres]
  have h2 : (is_bored_of init_detector p j).2 =
      { iteration := j, num := p, times := 0 } := by
    rw [is_bored_of]
    simp [hres]
  rw [h2]
  have hrlen : rest.length = 56 := by
    have := hlen
    simp only [List.length_cons] at this
    omega
  have hz : countResets { iteration := j, num := p, times := 0 } rest = 0 := by
    apply countResets_zero
    · rfl
    · intro x hx
      have hlt : p < x.1 := (List.pairwise_cons.mp hinc).1 x hx
      show x.1 ≠ p
      omega
    · show j + (rest.length : Int) ≤ ((REPETITIONS * PATTERN_LENGTH : Nat) : Int)
      have h56 : ((REPETITIONS * PATTERN_LENGTH : Nat) : Int) = 56 := by
        norm_num [REPETITIONS, PATTERN_LENGTH]
      rw [hrlen, h56]
      omega
  rw [hz]
  simp

/-- C5 (witness): the concrete run on populations 0, 1, ..., 56 with
all jitters 0 resets exactly once, on the first call. -/
theorem C5_reset_fires_once_witness :
    resets init_detector 0 = true ∧
    countResets init_detector
      (((0:Nat), (0:Int)) :: (List.range 56).map (fun i => (i + 1, 0))) = 1 :=
  C5_reset_fires_once 0 0 ((List.range 56).map (fun i => (i + 1, 0)))
    (by decide) (by decide) (by decide) (by decide)

/-- C6 (counterexample): the reachable detector state (0, 1, 0) - the
state right after a reset that recorded population 1 with jitter 0 -
fed a constant population 0 for 16 consecutive calls, crosses no reset
boundary and returns false on every one of the 16 calls, because the
stable streak never starts: the constant population differs from the
recorded one. -/
theorem C6_counterexample :
    noResetDuring { iteration := 0, num := 1, times := 0 }
        (List.replicate 16 ((0:Nat), (0:Int))) = true ∧
    run_results { iteration := 0, num := 1, times := 0 }
        (List.replicate 16 ((0:Nat), (0:Int))) = List.replicate 16 false := by
  decide

theorem bored_const_fires : ∀ (js : List Int) (d : BoredomDetector),
    REPETITIONS + 1 ≤ d.times + js.length →
    d.iteration + (js.length : Int) ≤ ((REPETITIONS * PATTERN_LENGTH : Nat) : Int) →
    1 ≤ js.length →
    true ∈ run_results d (js.map (fun j => (d.num, j))) := by
  intro js
  induction js with
  | nil =>
    intro d _ _ h1
    cases h1
  | cons j rest ih =>
    intro d hcnt hit _
    rw [List.map_cons, run_results]
    by_cases hsb : step_bored d d.num = true
    · have h1 : (is_bored_of d d.num j).1 = true := hsb
      rw [h1]
      exact List.mem_cons_self _ _
    · rw [Bool.not_eq_true] at hsb
      have hstep : step_times d d.num = d.times + 1 := by
        rw [step_times, if_pos rfl]
      have hle : d.times + 1 ≤ REPETITIONS := by
        rw [step_bored] at hsb
        have hn := of_decide_eq_false hsb
        rw [hstep] at hn
        omega
      have hres : resets d d.num = false := by
        rw [resets, Bool.or_eq_false_iff]
        refine ⟨?_, hsb⟩
        apply decide_eq_false
        simp only [List.length_cons] at hit
        push_cast at hit ⊢
        omega
      have h2 : (is_bored_of d d.num j).2 =
          { iteration := d.iteration + 1, num := d.num, times := d.times + 1 } := by
        rw [is_bored_of]
        simp [hres, hstep]
      apply List.mem_cons_of_mem
      rw [h2]
      refine ih { iteration := d.iteration + 1, num := d.num, times := d.times + 1 } ?_ ?_ ?_
      · show REPETITIONS + 1 ≤ (d.times + 1) + rest.length
        simp only [List.length_cons] at hcnt
        omega
      · show (d.iteration + 1) + (rest.length : Int) ≤ ((REPETITIONS * PATTERN_LENGTH : Nat) : Int)
        simp only [List.length_cons] at hit
        push_cast at hit ⊢
        omega
      · show 1 ≤ rest.length
        simp only [List.length_cons] at hcnt
        omega

/-- C6 (amended): for every BoredomDetector state whose recorded
lastPopulation equals the constant population p being fed, and whose
iteration counter satisfies iteration + 16 <= 56 - so that the periodic
reset boundary cannot be crossed inside the window - feeding boards of
population p for REPETITIONS + 2 = 16 consecutive calls makes
is_bored_of return true on at least one of those calls. -/
theorem C6_amended_constant_pop_fires (d : BoredomDetector) (js : List Int)
    (hlen : js.length = 16)
    (hiter : d.iteration + 16 ≤ 56) :
    true ∈ run_results d (js.map (fun j => (d.num, j))) := by
  apply bored_const_fires
  · rw [hlen]
    norm_num [REPETITIONS]
  · rw [hlen]
    have h56 : ((REPETITIONS * PATTERN_LENGTH : Nat) : Int) = 56 := by
      norm_num [REPETITIONS, PATTERN_LENGTH]
    rw [h56]
    push_cast
    omega
  · rw [hlen]
    omega

/-- C6 (amended, witness): the post-reset state (0, 7, 0) fed population
7 for 16 calls fires at least once. -/
theorem C6_amended_constant_pop_fires_witness :
    true ∈ run_results { iteration := 0, num := 7, times := 0 }
      ((List.replicate 16 (0:Int)).map (fun j => ((7:Nat), j))) :=
  C6_amended_constant_pop_fires { iteration := 0, num := 7, times := 0 }
    (List.replicate 16 (0:Int)) (by decide) (by decide)
